import Mathlib

/-!
Verification of the task-progress tracker (`src/script.js`).

The program keeps an ordered list of task records in a global `tasks`
array and mutates it through `addTask`, `updateTask`, `updateProgress`,
`deleteTask`, the SortableJS reorder callback, import/export, and
`loadTasks`.  Below, each JS function is embedded as a pure Lean function
on an explicit task list; DOM reads (form fields, clock) become
parameters, and a fallible `parseInt` becomes `Option Int`.
-/

set_option autoImplicit false

namespace Tracker

/-- A task record, as built by `addTask` in `src/script.js`
(`{id, name, target, current, createdAt, lastModified}`).
Numbers are integers (`Date.now()`, `parseInt` values); the ISO-8601
timestamp strings are kept as opaque strings. -/
structure Task where
  id : Int
  name : String
  target : Int
  current : Int
  createdAt : String
  lastModified : String
deriving DecidableEq, Repr

/-- `Math.max(0, Math.min(v, hi))` — the clamp used by `updateProgress`. -/
def clamp (v hi : Int) : Int := max 0 (min v hi)

/-- `updateProgress(taskId, change)` (script.js lines 164-190): find the
first task with the given id; if present, set
`current = Math.max(0, Math.min(current + change, target))` and stamp
`lastModified`; if absent, do nothing.  The DOM update is view-only. -/
def updateProgress (taskId change : Int) (now : String) : List Task → List Task
  | [] => []
  | t :: rest =>
    if t.id = taskId then
      { t with current := clamp (t.current + change) t.target, lastModified := now } :: rest
    else
      t :: updateProgress taskId change now rest

/-- A sequence of `updateProgress` calls, each with its own target id,
delta and clock reading, applied in order to a task list. -/
def runUpdates (calls : List (Int × Int × String)) (ts : List Task) : List Task :=
  calls.foldl (fun acc c => updateProgress c.1 c.2.1 c.2.2 acc) ts

/-- The record invariant of the spec: `0 <= current <= target`. -/
def InRange (t : Task) : Prop := 0 ≤ t.current ∧ t.current ≤ t.target

instance (t : Task) : Decidable (InRange t) := by unfold InRange; infer_instance

/-- `String.prototype.trim`: drop leading and trailing whitespace
(used on the name fields before validation). -/
def jsTrim (s : String) : String :=
  String.mk (((s.data.dropWhile Char.isWhitespace).reverse.dropWhile
    Char.isWhitespace).reverse)

/-- The rejection condition of `addTask` (script.js line 129):
`!taskName || !taskTarget || taskTarget < 1`, where `taskName` is the
trimmed name and `taskTarget = parseInt(field)` — falsy when the parse
returned `NaN` (here `none`) or `0`. -/
def AddRejects (rawName : String) (tgtIn : Option Int) : Prop :=
  match tgtIn with
  | none => True
  | some g => jsTrim rawName = "" ∨ g = 0 ∨ g < 1

instance (rawName : String) (tgtIn : Option Int) :
    Decidable (AddRejects rawName tgtIn) :=
  match tgtIn with
  | none => .isTrue trivial
  | some _ => inferInstanceAs (Decidable (_ ∨ _ ∨ _))

/-- `addTask()` (script.js lines 124-157): read the trimmed name and the
parsed target; bail out when the validation above fires; otherwise push
`{id: Date.now(), name, target, current: 0, createdAt, lastModified}`
onto the end of `tasks`. -/
def addTask (rawName : String) (tgtIn : Option Int) (now : Int) (iso : String)
    (ts : List Task) : List Task :=
  match tgtIn with
  | none => ts
  | some g =>
    if jsTrim rawName = "" ∨ g = 0 ∨ g < 1 then ts
    else ts ++ [{ id := now, name := jsTrim rawName, target := g, current := 0,
                  createdAt := iso, lastModified := iso }]

/-- The rejection condition of `updateTask` (script.js line 105):
`!newName || isNaN(newCurrent) || isNaN(newTarget) || newTarget < 1 ||
newCurrent < 0 || newCurrent > newTarget`, with `parseInt` failures
embedded as `none`. -/
def EditRejects (rawName : String) (curIn tgtIn : Option Int) : Prop :=
  match curIn, tgtIn with
  | some c, some g => jsTrim rawName = "" ∨ g < 1 ∨ c < 0 ∨ c > g
  | _, _ => True

instance (rawName : String) (curIn tgtIn : Option Int) :
    Decidable (EditRejects rawName curIn tgtIn) :=
  match curIn, tgtIn with
  | none, none => .isTrue trivial
  | none, some _ => .isTrue trivial
  | some _, none => .isTrue trivial
  | some _, some _ => inferInstanceAs (Decidable (_ ∨ _ ∨ _ ∨ _))

/-- The body of `updateTask()` applied along the list: at the first task
whose id matches, either abort on failed validation or overwrite `name`,
`current`, `target` and stamp `lastModified`; the validation condition
does not depend on the record, so it is a fixed parameter here. -/
def updateTaskGo (cid : Int) (name : String) (c g : Int) (now : String) :
    List Task → List Task
  | [] => []
  | t :: rest =>
    if t.id = cid then
      if name = "" ∨ g < 1 ∨ c < 0 ∨ c > g then t :: rest
      else { t with name := name, current := c, target := g,
                    lastModified := now } :: rest
    else t :: updateTaskGo cid name c g now rest

/-- `updateTask()` (script.js lines 96-119): find the task whose id is
`currentEditingTaskId`; if found, validate the three form fields
(trimmed name, `parseInt` of current and target) and either abort
(alert, no state change) or overwrite the three fields and
`lastModified`.  A `parseInt` failure (`isNaN`) always aborts. -/
def updateTask (cid : Int) (rawName : String) (curIn tgtIn : Option Int)
    (now : String) (ts : List Task) : List Task :=
  match curIn, tgtIn with
  | some c, some g => updateTaskGo cid (jsTrim rawName) c g now ts
  | _, _ => ts

/-- `deleteTask(taskId)` (script.js lines 196-207), after the `confirm`
gate: `findIndex` of the first task with matching id, then `splice` it
out; when `findIndex` returns `-1` nothing changes. -/
def removeFirst (taskId : Int) : List Task → List Task
  | [] => []
  | t :: rest => if t.id = taskId then rest else t :: removeFirst taskId rest

/-- `deleteTask` including the `confirm('Are you sure…')` gate: the splice
only happens when the user confirmed. -/
def deleteTask (confirmed : Bool) (taskId : Int) (ts : List Task) : List Task :=
  if confirmed then removeFirst taskId ts else ts

/-- The SortableJS `onEnd` reorder callback (script.js lines 23-37): for
each card id in the new visual order, `tasks.find` the task with that id
and push it when found; ids with no matching task are skipped.  The
resulting array replaces `tasks`. -/
def reorder (ids : List Int) (ts : List Task) : List Task :=
  ids.filterMap (fun i => ts.find? (fun t => t.id == i))

/-- A parsed JSON field value, as `handleFileImport` sees them after
`JSON.parse`: the import file may put any JSON scalar in any field, so
truthiness and `typeof x === 'number'` are checked dynamically. -/
inductive JVal where
  | num (n : Int)
  | str (s : String)
  | bool (b : Bool)
  | null
deriving DecidableEq, Repr

/-- JavaScript truthiness of a parsed JSON scalar: `0`, `""`, `false`
and `null` are falsy. -/
def JVal.truthy : JVal → Bool
  | .num n => n != 0
  | .str s => s != ""
  | .bool b => b
  | .null => false

/-- `typeof x === 'number'`. -/
def JVal.isNumber : JVal → Bool
  | .num _ => true
  | _ => false

/-- A record of the import payload: an object with the six task fields,
each still an untyped JSON scalar. -/
structure RawTask where
  id : JVal
  name : JVal
  target : JVal
  current : JVal
  createdAt : JVal
  lastModified : JVal
deriving DecidableEq, Repr

/-- The per-record check of `handleFileImport` (script.js lines 282-284):
`task.id && task.name && typeof task.target === 'number' &&
typeof task.current === 'number'`. -/
def validRecord (r : RawTask) : Bool :=
  r.id.truthy && r.name.truthy && r.target.isNumber && r.current.isNumber

/-- The whole-payload check (script.js lines 281-286): a non-empty array
whose every record passes `validRecord`. -/
def importValid (cand : List RawTask) : Bool :=
  !cand.isEmpty && cand.all validRecord

/-- `handleFileImport` (script.js lines 271-310) after a successful
`JSON.parse`: when the payload validates and the user confirms, `tasks`
is replaced verbatim by the candidate list; otherwise (invalid payload
or declined confirmation) the current list is kept. -/
def handleFileImport (cand : List RawTask) (confirmed : Bool)
    (cur : List RawTask) : List RawTask :=
  if importValid cand then (if confirmed then cand else cur) else cur

/-- Serialization of one task by `exportData` (script.js line 244,
`JSON.stringify`) as re-read by `JSON.parse` on import: each integer
field becomes a JSON number, each string field a JSON string. -/
def taskToRaw (t : Task) : RawTask :=
  { id := .num t.id, name := .str t.name, target := .num t.target,
    current := .num t.current, createdAt := .str t.createdAt,
    lastModified := .str t.lastModified }

/-- `exportData` (script.js lines 242-258): the downloaded snapshot is
the JSON array of the current tasks. -/
def exportSnapshot (ts : List Task) : List RawTask := ts.map taskToRaw

/-- Reading an exported record back into a typed task; fails on any
field whose JSON type is not the one `addTask` produces. -/
def rawToTask : RawTask → Option Task
  | ⟨.num i, .str n, .num g, .num c, .str ca, .str lm⟩ =>
    some ⟨i, n, g, c, ca, lm⟩
  | _ => none

/-- The storage substrate under the `tasks` key as the script starts:
no snapshot, a snapshot that is not valid JSON, or a JSON array of
task records. -/
inductive Stored where
  | absent
  | malformed
  | wellFormed (ts : List Task)

/-- Line 4 of script.js, run at top level outside any try/catch:
`let tasks = JSON.parse(localStorage.getItem('tasks')) || [];`.
With no snapshot, `getItem` gives `null`, `JSON.parse(null)` parses the
string `"null"` to `null`, and `|| []` yields `[]`; with malformed
content `JSON.parse` throws, and the uncaught exception aborts the rest
of the script (`Except.error`); with a stored array the array is used
(arrays are truthy). -/
def initialLoad : Stored → Except Unit (List Task)
  | .absent => .ok []
  | .malformed => .error ()
  | .wellFormed ts => .ok ts

/-- `loadTasks()` (script.js lines 225-237): re-read the snapshot inside
try/catch; keep the current tasks when no snapshot exists, reset to `[]`
when the parse throws, replace with the parsed array otherwise. -/
def loadTasks (stored : Stored) (prior : List Task) : List Task :=
  match stored with
  | .absent => prior
  | .malformed => []
  | .wellFormed ts => ts

/-- The script's startup sequence: line 4 runs first; only if it does
not throw does the rest of the script (including the `loadTasks()` call
at line 420) execute. -/
def startupTasks (stored : Stored) : Except Unit (List Task) :=
  match initialLoad stored with
  | .error e => .error e
  | .ok t0 => .ok (loadTasks stored t0)

/-- One user-level mutation of the task store, with every clock reading
it performs carried as data. -/
inductive Op where
  | createOp (rawName : String) (tgtIn : Option Int) (now : Int) (iso : String)
  | editOp (cid : Int) (rawName : String) (curIn tgtIn : Option Int) (iso : String)
  | progressOp (taskId change : Int) (iso : String)
  | deleteOp (confirmed : Bool) (taskId : Int)
  | reorderOp (ids : List Int)

/-- Dispatch one operation to the embedded script function. -/
def step : Op → List Task → List Task
  | .createOp rawName tgtIn now iso, ts => addTask rawName tgtIn now iso ts
  | .editOp cid rawName curIn tgtIn iso, ts => updateTask cid rawName curIn tgtIn iso ts
  | .progressOp taskId change iso, ts => updateProgress taskId change iso ts
  | .deleteOp confirmed taskId, ts => deleteTask confirmed taskId ts
  | .reorderOp ids, ts => reorder ids ts

/-- A session: a list of operations applied in order. -/
def run (ops : List Op) (ts : List Task) : List Task :=
  ops.foldl (fun acc op => step op acc) ts

/-- The `Date.now()` readings of the create operations of a session, in
order. -/
def createTimes : List Op → List Int
  | [] => []
  | .createOp _ _ now _ :: rest => now :: createTimes rest
  | _ :: rest => createTimes rest

/-- The ids issued by the successful creates of a session, in order:
`addTask` assigns `id = Date.now()` exactly when its validation does not
reject. -/
def issuedIds : List Op → List Int
  | [] => []
  | .createOp rawName tgtIn now _ :: rest =>
    if AddRejects rawName tgtIn then issuedIds rest else now :: issuedIds rest
  | _ :: rest => issuedIds rest

theorem clamp_nonneg (v hi : Int) : 0 ≤ clamp v hi := le_max_left 0 _

theorem clamp_le (v hi : Int) (h : 0 ≤ hi) : clamp v hi ≤ hi :=
  max_le h (min_le_right v hi)

theorem updateProgress_inRange (taskId change : Int) (now : String)
    (ts : List Task) (h : ∀ t ∈ ts, InRange t) :
    ∀ t ∈ updateProgress taskId change now ts, InRange t := by
  induction ts with
  | nil => simp [updateProgress]
  | cons a rest ih =>
    intro t ht
    rw [updateProgress] at ht
    by_cases hid : a.id = taskId
    · rw [if_pos hid] at ht
      rcases List.mem_cons.mp ht with rfl | hrest
      · have ha : InRange a := h a (List.mem_cons_self a rest)
        have htgt : 0 ≤ a.target := le_trans ha.1 ha.2
        exact ⟨clamp_nonneg _ _, clamp_le _ _ htgt⟩
      · exact h t (List.mem_cons_of_mem a hrest)
    · rw [if_neg hid] at ht
      rcases List.mem_cons.mp ht with rfl | hrest
      · exact h t (List.mem_cons_self t rest)
      · exact ih (fun u hu => h u (List.mem_cons_of_mem a hu)) t hrest

/-- C1: for every task list satisfying `0 ≤ current ≤ target`, any finite
sequence of `updateProgress` calls, with arbitrary integer deltas, keeps
every record's `current` in `[0, target]`: the clamp
`Math.max(0, Math.min(current + change, target))` preserves the invariant
under arbitrary repeated application. -/
theorem updateProgress_invariant_preserved
    (calls : List (Int × Int × String)) (ts : List Task)
    (h : ∀ t ∈ ts, InRange t) :
    ∀ t ∈ runUpdates calls ts, InRange t := by
  induction calls generalizing ts with
  | nil => exact h
  | cons c rest ih =>
    exact ih _ (updateProgress_inRange c.1 c.2.1 c.2.2 ts h)

/-- Concrete check for C1: a record at `3/10` hit with deltas `+100`,
`-100`, `+7` stays in range (ending at `7/10`). -/
theorem updateProgress_invariant_preserved_witness :
    (∀ t ∈ [Task.mk 1 "Read books" 10 3 "t0" "t0"], InRange t) ∧
      ∀ t ∈ runUpdates [(1, 100, "t1"), (1, -100, "t2"), (1, 7, "t3")]
          [Task.mk 1 "Read books" 10 3 "t0" "t0"], InRange t :=
  ⟨by decide,
   updateProgress_invariant_preserved
     [(1, 100, "t1"), (1, -100, "t2"), (1, 7, "t3")]
     [Task.mk 1 "Read books" 10 3 "t0" "t0"] (by decide)⟩

/-- C3: `addTask` fails — leaving the task list unchanged — exactly when
the trimmed name is empty or the parsed target is not a positive integer
(`parseInt` failed, or the value is below 1); on success the new record
has `current = 0` (hence `0 ≤ current ≤ target`, since `target ≥ 1`) and
is appended at the end of the list with every prior record intact. -/
theorem addTask_spec (rawName : String) (tgtIn : Option Int) (now : Int)
    (iso : String) (ts : List Task) :
    (AddRejects rawName tgtIn ↔
      jsTrim rawName = "" ∨ ∀ g : Int, tgtIn = some g → g < 1) ∧
    (AddRejects rawName tgtIn → addTask rawName tgtIn now iso ts = ts) ∧
    (¬ AddRejects rawName tgtIn →
      ∃ g : Int, tgtIn = some g ∧ 1 ≤ g ∧
        addTask rawName tgtIn now iso ts =
          ts ++ [{ id := now, name := jsTrim rawName, target := g, current := 0,
                   createdAt := iso, lastModified := iso }] ∧
        addTask rawName tgtIn now iso ts ≠ ts) := by
  rcases tgtIn with _ | g
  · refine ⟨?_, fun _ => rfl, fun h => absurd trivial h⟩
    exact ⟨fun _ => Or.inr (fun g hg => by cases hg), fun _ => trivial⟩
  · refine ⟨?_, ?_, ?_⟩
    · constructor
      · rintro (h | h | h)
        · exact Or.inl h
        · exact Or.inr (fun g' hg' => by cases hg'; omega)
        · exact Or.inr (fun g' hg' => by cases hg'; omega)
      · rintro (h | h)
        · exact Or.inl h
        · exact Or.inr (Or.inr (h g rfl))
    · intro h
      have h' : jsTrim rawName = "" ∨ g = 0 ∨ g < 1 := h
      simp only [addTask]
      rw [if_pos h']
    · intro h
      have h' : ¬ (jsTrim rawName = "" ∨ g = 0 ∨ g < 1) := h
      push_neg at h'
      obtain ⟨hn, h0, h1⟩ := h'
      refine ⟨g, rfl, by omega, ?_, ?_⟩
      · simp only [addTask]
        rw [if_neg (show ¬ (jsTrim rawName = "" ∨ g = 0 ∨ g < 1) from h)]
      · simp only [addTask]
        rw [if_neg (show ¬ (jsTrim rawName = "" ∨ g = 0 ∨ g < 1) from h)]
        intro hEq
        have hLen := congrArg List.length hEq
        simp at hLen

/-- Concrete check for C3: `create("", 5)` is rejected leaving the list
unchanged, and `create("Read books", 10)` appends a fresh record with
`current = 0`. -/
theorem addTask_spec_witness :
    addTask "" (some 5) 7 "i" [] = [] ∧
      ∃ g : Int, (some 10 : Option Int) = some g ∧ 1 ≤ g ∧
        addTask "Read books" (some 10) 7 "i" [] =
          [] ++ [{ id := 7, name := jsTrim "Read books", target := g, current := 0,
                   createdAt := "i", lastModified := "i" }] ∧
        addTask "Read books" (some 10) 7 "i" [] ≠ [] :=
  ⟨(addTask_spec "" (some 5) 7 "i" []).2.1 (by decide),
   (addTask_spec "Read books" (some 10) 7 "i" []).2.2 (by decide)⟩

theorem updateTaskGo_noop (cid : Int) (name : String) (c g : Int) (now : String)
    (ts : List Task) (h : name = "" ∨ g < 1 ∨ c < 0 ∨ c > g) :
    updateTaskGo cid name c g now ts = ts := by
  induction ts with
  | nil => rfl
  | cons a rest ih =>
    rw [updateTaskGo]
    by_cases hid : a.id = cid
    · rw [if_pos hid, if_pos h]
    · rw [if_neg hid, ih]

theorem updateTaskGo_frame (cid : Int) (name : String) (c g : Int) (now : String)
    (ts : List Task) (h : ¬ (name = "" ∨ g < 1 ∨ c < 0 ∨ c > g)) :
    (∀ j : Nat, j ≠ ts.findIdx (fun t => t.id == cid) →
      (updateTaskGo cid name c g now ts)[j]? = ts[j]?) ∧
    (updateTaskGo cid name c g now ts)[ts.findIdx (fun t => t.id == cid)]? =
      (ts[ts.findIdx (fun t => t.id == cid)]?).map
        (fun t => { t with name := name, current := c, target := g,
                           lastModified := now }) := by
  induction ts with
  | nil => exact ⟨fun j _ => rfl, rfl⟩
  | cons a rest ih =>
    by_cases hid : a.id = cid
    · have hfind : List.findIdx (fun t => t.id == cid) (a :: rest) = 0 := by
        simp [List.findIdx_cons, hid]
      rw [updateTaskGo, if_pos hid, if_neg h, hfind]
      refine ⟨?_, by simp⟩
      intro j hj
      match j with
      | 0 => exact absurd rfl hj
      | k + 1 => simp
    · have hfind : List.findIdx (fun t => t.id == cid) (a :: rest) =
          List.findIdx (fun t => t.id == cid) rest + 1 := by
        simp [List.findIdx_cons, beq_eq_false_iff_ne.mpr hid]
      rw [updateTaskGo, if_neg hid, hfind]
      refine ⟨?_, by simpa using ih.2⟩
      intro j hj
      match j with
      | 0 => simp
      | k + 1 =>
        have hk : k ≠ List.findIdx (fun t => t.id == cid) rest := by omega
        simpa using ih.1 k hk

/-- C2: `updateTask` (the edit operation) is atomic with respect to
validation: whenever the trimmed name is empty, the target is below 1,
the current value is negative or above the target, or either numeric
field failed to parse as an integer, the whole list — in particular the
edited record's `name`, `current` and `target` — is unchanged; on
success the record found first by `currentEditingTaskId` has its three
fields replaced and `lastModified` updated, and nothing else changes. -/
theorem updateTask_atomic (cid : Int) (rawName : String) (curIn tgtIn : Option Int)
    (now : String) (ts : List Task) :
    (EditRejects rawName curIn tgtIn →
      updateTask cid rawName curIn tgtIn now ts = ts) ∧
    (∀ c g : Int, curIn = some c → tgtIn = some g →
      ¬ EditRejects rawName curIn tgtIn →
      (∀ j : Nat, j ≠ ts.findIdx (fun t => t.id == cid) →
        (updateTask cid rawName curIn tgtIn now ts)[j]? = ts[j]?) ∧
      (updateTask cid rawName curIn tgtIn now ts)[ts.findIdx (fun t => t.id == cid)]? =
        (ts[ts.findIdx (fun t => t.id == cid)]?).map
          (fun t => { t with name := jsTrim rawName, current := c, target := g,
                             lastModified := now })) := by
  constructor
  · intro h
    rcases curIn with _ | c <;> rcases tgtIn with _ | g
    · rfl
    · rfl
    · rfl
    · exact updateTaskGo_noop cid (jsTrim rawName) c g now ts h
  · rintro c g rfl rfl h
    exact updateTaskGo_frame cid (jsTrim rawName) c g now ts h

/-- Concrete check for C2: `edit(1, "X", current=8, target=5)` is
rejected (`current > target`) leaving the record untouched, while
`edit(1, "Y", current=3, target=10)` rewrites exactly the three fields
plus `lastModified`. -/
theorem updateTask_atomic_witness :
    updateTask 1 "X" (some 8) (some 5) "t1" [Task.mk 1 "A" 10 3 "c" "m"] =
        [Task.mk 1 "A" 10 3 "c" "m"] ∧
      (updateTask 1 "Y" (some 3) (some 10) "t1"
          [Task.mk 1 "A" 10 3 "c" "m"])[List.findIdx (fun t => t.id == 1)
            [Task.mk 1 "A" 10 3 "c" "m"]]? =
        ([Task.mk 1 "A" 10 3 "c" "m"][List.findIdx (fun t => t.id == 1)
            [Task.mk 1 "A" 10 3 "c" "m"]]?).map
          (fun t => { t with name := jsTrim "Y", current := 3, target := 10,
                             lastModified := "t1" }) :=
  ⟨(updateTask_atomic 1 "X" (some 8) (some 5) "t1"
      [Task.mk 1 "A" 10 3 "c" "m"]).1 (by decide),
   ((updateTask_atomic 1 "Y" (some 3) (some 10) "t1"
      [Task.mk 1 "A" 10 3 "c" "m"]).2 3 10 rfl rfl (by decide)).2⟩

theorem updateProgress_eq_of_absent (taskId change : Int) (now : String)
    (ts : List Task) (h : ∀ t ∈ ts, t.id ≠ taskId) :
    updateProgress taskId change now ts = ts := by
  induction ts with
  | nil => rfl
  | cons a rest ih =>
    rw [updateProgress, if_neg (h a (List.mem_cons_self a rest)),
      ih (fun u hu => h u (List.mem_cons_of_mem a hu))]

theorem removeFirst_eq_of_absent (taskId : Int) (ts : List Task)
    (h : ∀ t ∈ ts, t.id ≠ taskId) : removeFirst taskId ts = ts := by
  induction ts with
  | nil => rfl
  | cons a rest ih =>
    rw [removeFirst, if_neg (h a (List.mem_cons_self a rest)),
      ih (fun u hu => h u (List.mem_cons_of_mem a hu))]

/-- C8: when no task in the list has the given id, `updateProgress` and
`deleteTask` are both no-ops: no error is raised (both functions are
total) and the task list is returned unchanged, whatever the delta, the
clock, or the confirmation answer. -/
theorem absent_id_noop (taskId change : Int) (now : String) (confirmed : Bool)
    (ts : List Task) (h : ∀ t ∈ ts, t.id ≠ taskId) :
    updateProgress taskId change now ts = ts ∧ deleteTask confirmed taskId ts = ts := by
  refine ⟨updateProgress_eq_of_absent taskId change now ts h, ?_⟩
  unfold deleteTask
  rcases confirmed with _ | _
  · rfl
  · exact if_pos rfl ▸ removeFirst_eq_of_absent taskId ts h

/-- Concrete check for C8: id `99` is absent from a two-task list, and
both operations leave the list unchanged. -/
theorem absent_id_noop_witness :
    updateProgress 99 5 "t1" [Task.mk 1 "A" 10 3 "c" "m", Task.mk 2 "B" 5 0 "c" "m"] =
        [Task.mk 1 "A" 10 3 "c" "m", Task.mk 2 "B" 5 0 "c" "m"] ∧
      deleteTask true 99 [Task.mk 1 "A" 10 3 "c" "m", Task.mk 2 "B" 5 0 "c" "m"] =
        [Task.mk 1 "A" 10 3 "c" "m", Task.mk 2 "B" 5 0 "c" "m"] :=
  absent_id_noop 99 5 "t1" true
    [Task.mk 1 "A" 10 3 "c" "m", Task.mk 2 "B" 5 0 "c" "m"] (by decide)

/-- C10: `updateProgress` touches at most one record, the first one whose
id matches: the list keeps its length, every position other than the
first matching index is unchanged (so every other record, the order and
the length are preserved), and the record at the first matching index —
when it exists — differs only in `current` (set to the clamped value) and
`lastModified`; its `id`, `name`, `target` and `createdAt` are kept. -/
theorem updateProgress_frame (taskId change : Int) (now : String) (ts : List Task) :
    (updateProgress taskId change now ts).length = ts.length ∧
    (∀ j : Nat, j ≠ ts.findIdx (fun t => t.id == taskId) →
      (updateProgress taskId change now ts)[j]? = ts[j]?) ∧
    (updateProgress taskId change now ts)[ts.findIdx (fun t => t.id == taskId)]? =
      (ts[ts.findIdx (fun t => t.id == taskId)]?).map
        (fun t => { t with current := clamp (t.current + change) t.target,
                           lastModified := now }) := by
  induction ts with
  | nil => exact ⟨rfl, fun j _ => rfl, rfl⟩
  | cons a rest ih =>
    by_cases hid : a.id = taskId
    · have hfind : List.findIdx (fun t => t.id == taskId) (a :: rest) = 0 := by
        simp [List.findIdx_cons, hid]
      rw [updateProgress, if_pos hid, hfind]
      refine ⟨by simp, ?_, by simp⟩
      intro j hj
      match j with
      | 0 => exact absurd rfl hj
      | k + 1 => simp
    · have hfind : List.findIdx (fun t => t.id == taskId) (a :: rest) =
          List.findIdx (fun t => t.id == taskId) rest + 1 := by
        simp [List.findIdx_cons, beq_eq_false_iff_ne.mpr hid]
      rw [updateProgress, if_neg hid, hfind]
      refine ⟨by simpa using ih.1, ?_, by simpa using ih.2.2⟩
      intro j hj
      match j with
      | 0 => simp
      | k + 1 =>
        have hk : k ≠ List.findIdx (fun t => t.id == taskId) rest := by omega
        simpa using ih.2.1 k hk

/-- Concrete check for C10: updating id `1` in a two-task list leaves
position `1` untouched and rewrites only `current`/`lastModified` at
position `0`. -/
theorem updateProgress_frame_witness :
    (updateProgress 1 100 "t9" [Task.mk 1 "A" 10 3 "c" "m", Task.mk 2 "B" 5 0 "c" "m"])[1]? =
      [Task.mk 1 "A" 10 3 "c" "m", Task.mk 2 "B" 5 0 "c" "m"][1]? :=
  (updateProgress_frame 1 100 "t9"
    [Task.mk 1 "A" 10 3 "c" "m", Task.mk 2 "B" 5 0 "c" "m"]).2.1 1 (by decide)

/-- C6: under the no-duplicate-ids invariant, the reorder callback
produces exactly the records whose ids occur in the dropped-card id
list, in the list's order: the result's ids are the input ids filtered
to those present in the task list (so ids matching no record are
silently dropped, and absent tasks' ids are omitted), every produced
record comes from the original list, and every record whose id occurs in
the input list is kept. -/
theorem reorder_spec (ids : List Int) (ts : List Task)
    (hnd : (ts.map Task.id).Nodup) :
    (reorder ids ts).map Task.id =
        ids.filter (fun i => decide (i ∈ ts.map Task.id)) ∧
    (∀ t ∈ reorder ids ts, t ∈ ts ∧ t.id ∈ ids) ∧
    (∀ t ∈ ts, t.id ∈ ids → t ∈ reorder ids ts) := by
  refine ⟨?_, ?_, ?_⟩
  · induction ids with
    | nil => rfl
    | cons i rest ih =>
      rcases hf : ts.find? (fun t => t.id == i) with _ | t
      · have hnot : i ∉ ts.map Task.id := by
          intro hmem
          obtain ⟨u, hu, huid⟩ := List.mem_map.mp hmem
          exact List.find?_eq_none.mp hf u hu (by simp [huid])
        simp only [reorder] at ih ⊢
        rw [List.filterMap_cons, hf, List.filter_cons]
        simp [hnot, ih]
      · have hp : t.id = i := by simpa using List.find?_some hf
        have htmem : t ∈ ts := List.mem_of_find?_eq_some hf
        have hmem : i ∈ ts.map Task.id := hp ▸ List.mem_map_of_mem Task.id htmem
        simp only [reorder] at ih ⊢
        rw [List.filterMap_cons, hf, List.filter_cons]
        simp [hmem, hp, ih]
  · intro t ht
    obtain ⟨i, hi, hf⟩ := List.mem_filterMap.mp ht
    have hp : t.id = i := by simpa using List.find?_some hf
    exact ⟨List.mem_of_find?_eq_some hf, by rw [hp]; exact hi⟩
  · intro t ht hid
    rcases hf : ts.find? (fun u => u.id == t.id) with _ | u
    · exact absurd (show (t.id == t.id) = true by simp)
        (List.find?_eq_none.mp hf t ht)
    · have hu : u ∈ ts := List.mem_of_find?_eq_some hf
      have hup : u.id = t.id := by simpa using List.find?_some hf
      have hut : u = t := List.inj_on_of_nodup_map hnd hu ht hup
      exact List.mem_filterMap.mpr ⟨t.id, hid, hut ▸ hf⟩

/-- Concrete check for C6: reordering `[A(1), B(2), C(3)]` with the id
list `[3, 1, 99]` yields the records with ids `[3, 1]`: id `99` matches
nothing and is dropped, id `2` was omitted and its record is gone. -/
theorem reorder_spec_witness :
    (reorder [3, 1, 99]
        [Task.mk 1 "A" 10 3 "c" "m", Task.mk 2 "B" 5 0 "c" "m",
         Task.mk 3 "C" 8 2 "c" "m"]).map Task.id =
      [3, 1, 99].filter (fun i =>
        decide (i ∈ [Task.mk 1 "A" 10 3 "c" "m", Task.mk 2 "B" 5 0 "c" "m",
          Task.mk 3 "C" 8 2 "c" "m"].map Task.id)) :=
  (reorder_spec [3, 1, 99]
    [Task.mk 1 "A" 10 3 "c" "m", Task.mk 2 "B" 5 0 "c" "m",
     Task.mk 3 "C" 8 2 "c" "m"] (by decide)).1

/-- C4: the import accepts a candidate list exactly when it is non-empty
and every record has a truthy `id`, truthy `name`, numeric `target` and
numeric `current`; a rejected payload leaves the current list untouched
(all-or-nothing), an accepted and confirmed one replaces it verbatim;
and no range invariant is re-checked — a record with
`current = 9 > 5 = target` passes validation. -/
theorem handleFileImport_spec (cand cur : List RawTask) (confirmed : Bool) :
    (importValid cand = true ↔
      cand ≠ [] ∧ ∀ r ∈ cand, r.id.truthy = true ∧ r.name.truthy = true ∧
        r.target.isNumber = true ∧ r.current.isNumber = true) ∧
    (importValid cand = false → handleFileImport cand confirmed cur = cur) ∧
    (importValid cand = true → handleFileImport cand true cur = cand) ∧
    importValid [⟨.num 1, .str "A", .num 5, .num 9, .null, .null⟩] = true := by
  refine ⟨?_, ?_, ?_, by decide⟩
  · rw [importValid, Bool.and_eq_true, List.all_eq_true]
    constructor
    · rintro ⟨h1, h2⟩
      refine ⟨by simpa using h1, fun r hr => ?_⟩
      have hv := h2 r hr
      rw [validRecord] at hv
      simpa [Bool.and_eq_true, and_assoc] using hv
    · rintro ⟨h1, h2⟩
      refine ⟨by simpa using h1, fun r hr => ?_⟩
      rw [validRecord]
      obtain ⟨ha, hb, hc, hd⟩ := h2 r hr
      simp [ha, hb, hc, hd]
  · intro h
    rw [handleFileImport, h]
    simp
  · intro h
    rw [handleFileImport, h]
    simp

/-- Concrete check for C4: importing one valid record with confirmation
replaces the list verbatim; an empty payload is rejected and the current
list survives. -/
theorem handleFileImport_spec_witness :
    handleFileImport [⟨.num 1, .str "A", .num 5, .num 2, .null, .null⟩] true
        [⟨.num 9, .str "Z", .num 3, .num 1, .null, .null⟩] =
      [⟨.num 1, .str "A", .num 5, .num 2, .null, .null⟩] ∧
    handleFileImport [] true [⟨.num 9, .str "Z", .num 3, .num 1, .null, .null⟩] =
      [⟨.num 9, .str "Z", .num 3, .num 1, .null, .null⟩] :=
  ⟨(handleFileImport_spec [⟨.num 1, .str "A", .num 5, .num 2, .null, .null⟩]
      [⟨.num 9, .str "Z", .num 3, .num 1, .null, .null⟩] true).2.2.1 (by decide),
   (handleFileImport_spec []
      [⟨.num 9, .str "Z", .num 3, .num 1, .null, .null⟩] true).2.1 (by decide)⟩

/-- C5 counterexample: the empty task sequence refutes the unrestricted
round-trip law.  Its export is the empty JSON array, and the importer
rejects empty arrays (`importedTasks.length > 0` fails), so the exported
snapshot does not pass import validation as the claim asserts. -/
theorem export_import_empty_fails :
    importValid (exportSnapshot []) = false := by decide

/-- C5 (amended): for every non-empty task sequence whose records have
nonzero ids and non-empty names — which holds for every record the app
itself creates — the exported snapshot passes import validation,
importing it with confirmation replaces the sequence with exactly the
exported records, and decoding those records gives back the original
sequence unchanged. -/
theorem export_import_roundtrip (ts : List Task) (cur : List RawTask)
    (hne : ts ≠ []) (hid : ∀ t ∈ ts, t.id ≠ 0) (hname : ∀ t ∈ ts, t.name ≠ "") :
    importValid (exportSnapshot ts) = true ∧
    handleFileImport (exportSnapshot ts) true cur = exportSnapshot ts ∧
    (exportSnapshot ts).map rawToTask = ts.map some := by
  have hvalid : importValid (exportSnapshot ts) = true := by
    rw [importValid, Bool.and_eq_true]
    constructor
    · rcases ts with _ | ⟨a, rest⟩
      · exact absurd rfl hne
      · rfl
    · rw [List.all_eq_true]
      intro r hr
      rw [exportSnapshot] at hr
      obtain ⟨t, htmem, rfl⟩ := List.mem_map.mp hr
      simp only [validRecord, taskToRaw, JVal.truthy, JVal.isNumber,
        Bool.and_true, Bool.and_eq_true, bne_iff_ne, ne_eq]
      exact ⟨fun hc => hid t htmem hc, fun hc => hname t htmem hc⟩
  refine ⟨hvalid, ?_, ?_⟩
  · rw [handleFileImport, hvalid]
    simp
  · rw [exportSnapshot, List.map_map]
    rfl

/-- Concrete check for C5 (amended): one well-formed record round-trips
through export and import. -/
theorem export_import_roundtrip_witness :
    importValid (exportSnapshot [Task.mk 1 "A" 5 2 "c" "m"]) = true ∧
    handleFileImport (exportSnapshot [Task.mk 1 "A" 5 2 "c" "m"]) true [] =
      exportSnapshot [Task.mk 1 "A" 5 2 "c" "m"] ∧
    (exportSnapshot [Task.mk 1 "A" 5 2 "c" "m"]).map rawToTask =
      [Task.mk 1 "A" 5 2 "c" "m"].map some :=
  export_import_roundtrip [Task.mk 1 "A" 5 2 "c" "m"] [] (by decide)
    (by decide) (by decide)

/-- C9: on a snapshot that is not valid JSON the script does NOT recover
to the empty sequence — line 4 parses it outside any try/catch before
`loadTasks()` can run, so startup aborts with the uncaught exception;
`loadTasks` itself (had it been reached) would reset to `[]`, and with
no stored snapshot startup does yield the empty sequence. -/
theorem startup_malformed_throws :
    startupTasks .malformed = .error () ∧
    loadTasks .malformed [] = [] ∧
    startupTasks .absent = .ok [] :=
  ⟨rfl, rfl, rfl⟩

theorem issuedIds_sublist (ops : List Op) :
    (issuedIds ops).Sublist (createTimes ops) := by
  induction ops with
  | nil => simp [issuedIds, createTimes]
  | cons op rest ih =>
    cases op with
    | createOp rawName tgtIn now iso =>
      simp only [issuedIds, createTimes]
      by_cases hr : AddRejects rawName tgtIn
      · rw [if_pos hr]
        exact ih.cons now
      · rw [if_neg hr]
        exact ih.cons₂ now
    | editOp cid rawName curIn tgtIn iso => simpa only [issuedIds, createTimes] using ih
    | progressOp taskId change iso => simpa only [issuedIds, createTimes] using ih
    | deleteOp confirmed taskId => simpa only [issuedIds, createTimes] using ih
    | reorderOp ids => simpa only [issuedIds, createTimes] using ih

theorem updateProgress_map_id (taskId change : Int) (now : String) (ts : List Task) :
    (updateProgress taskId change now ts).map Task.id = ts.map Task.id := by
  induction ts with
  | nil => rfl
  | cons a rest ih =>
    rw [updateProgress]
    by_cases hid : a.id = taskId
    · rw [if_pos hid]
      rfl
    · rw [if_neg hid, List.map_cons, List.map_cons, ih]

theorem updateTaskGo_map_id (cid : Int) (name : String) (c g : Int) (now : String)
    (ts : List Task) :
    (updateTaskGo cid name c g now ts).map Task.id = ts.map Task.id := by
  induction ts with
  | nil => rfl
  | cons a rest ih =>
    rw [updateTaskGo]
    by_cases hid : a.id = cid
    · rw [if_pos hid]
      by_cases hv : name = "" ∨ g < 1 ∨ c < 0 ∨ c > g
      · rw [if_pos hv]
      · rw [if_neg hv]
        rfl
    · rw [if_neg hid, List.map_cons, List.map_cons, ih]

theorem updateTask_map_id (cid : Int) (rawName : String) (curIn tgtIn : Option Int)
    (now : String) (ts : List Task) :
    (updateTask cid rawName curIn tgtIn now ts).map Task.id = ts.map Task.id := by
  rcases curIn with _ | c <;> rcases tgtIn with _ | g
  · rfl
  · rfl
  · rfl
  · exact updateTaskGo_map_id cid (jsTrim rawName) c g now ts

theorem removeFirst_sublist (taskId : Int) (ts : List Task) :
    (removeFirst taskId ts).Sublist ts := by
  induction ts with
  | nil => simp [removeFirst]
  | cons a rest ih =>
    rw [removeFirst]
    by_cases hid : a.id = taskId
    · rw [if_pos hid]
      exact List.sublist_cons_self a rest
    · rw [if_neg hid]
      exact ih.cons₂ a

theorem reorder_mem (ids : List Int) (ts : List Task) (t : Task)
    (ht : t ∈ reorder ids ts) : t ∈ ts := by
  obtain ⟨i, _, hf⟩ := List.mem_filterMap.mp ht
  exact List.mem_of_find?_eq_some hf

theorem step_id_mem (op : Op) (ts : List Task) (t : Task) (ht : t ∈ step op ts) :
    t.id ∈ issuedIds [op] ∨ t.id ∈ ts.map Task.id := by
  cases op with
  | createOp rawName tgtIn now iso =>
    simp only [step] at ht
    rcases tgtIn with _ | g
    · exact Or.inr (List.mem_map_of_mem Task.id ht)
    · simp only [addTask] at ht
      by_cases hv : jsTrim rawName = "" ∨ g = 0 ∨ g < 1
      · rw [if_pos hv] at ht
        exact Or.inr (List.mem_map_of_mem Task.id ht)
      · rw [if_neg hv] at ht
        rcases List.mem_append.mp ht with hmem | hnew
        · exact Or.inr (List.mem_map_of_mem Task.id hmem)
        · left
          simp only [issuedIds]
          rw [if_neg (show ¬ AddRejects rawName (some g) from hv)]
          have : t.id = now := by
            rw [List.mem_singleton.mp hnew]
          rw [this]
          exact List.mem_singleton.mpr rfl
  | editOp cid rawName curIn tgtIn iso =>
    refine Or.inr ?_
    rw [← updateTask_map_id cid rawName curIn tgtIn iso ts]
    exact List.mem_map_of_mem Task.id ht
  | progressOp taskId change iso =>
    refine Or.inr ?_
    rw [← updateProgress_map_id taskId change iso ts]
    exact List.mem_map_of_mem Task.id ht
  | deleteOp confirmed taskId =>
    refine Or.inr ?_
    simp only [step, deleteTask] at ht
    rcases confirmed with _ | _
    · rw [if_neg (by simp)] at ht
      exact List.mem_map_of_mem Task.id ht
    · rw [if_pos rfl] at ht
      exact List.mem_map_of_mem Task.id ((removeFirst_sublist taskId ts).mem ht)
  | reorderOp ids =>
    exact Or.inr (List.mem_map_of_mem Task.id (reorder_mem ids ts t ht))

theorem issuedIds_single_subset (op : Op) (rest : List Op) (x : Int)
    (hx : x ∈ issuedIds [op]) : x ∈ issuedIds (op :: rest) := by
  cases op with
  | createOp rawName tgtIn now iso =>
    simp only [issuedIds] at hx ⊢
    by_cases hr : AddRejects rawName tgtIn
    · rw [if_pos hr] at hx
      cases hx
    · rw [if_neg hr] at hx ⊢
      rcases List.mem_cons.mp hx with rfl | hx'
      · exact List.mem_cons_self x _
      · cases hx'
  | editOp cid rawName curIn tgtIn iso => cases hx
  | progressOp taskId change iso => cases hx
  | deleteOp confirmed taskId => cases hx
  | reorderOp ids => cases hx

theorem issuedIds_rest_subset (op : Op) (rest : List Op) (x : Int)
    (hx : x ∈ issuedIds rest) : x ∈ issuedIds (op :: rest) := by
  cases op with
  | createOp rawName tgtIn now iso =>
    simp only [issuedIds]
    by_cases hr : AddRejects rawName tgtIn
    · rw [if_pos hr]
      exact hx
    · rw [if_neg hr]
      exact List.mem_cons_of_mem now hx
  | editOp cid rawName curIn tgtIn iso => exact hx
  | progressOp taskId change iso => exact hx
  | deleteOp confirmed taskId => exact hx
  | reorderOp ids => exact hx

theorem run_id_mem (ops : List Op) :
    ∀ (ts : List Task) (t : Task), t ∈ run ops ts →
      t.id ∈ issuedIds ops ∨ t.id ∈ ts.map Task.id := by
  induction ops with
  | nil =>
    intro ts t ht
    exact Or.inr (List.mem_map_of_mem Task.id ht)
  | cons op rest ih =>
    intro ts t ht
    rcases ih (step op ts) t ht with hIn | hMem
    · exact Or.inl (issuedIds_rest_subset op rest t.id hIn)
    · obtain ⟨u, hu, hui⟩ := List.mem_map.mp hMem
      rcases step_id_mem op ts u hu with h1 | h2
      · exact Or.inl (issuedIds_single_subset op rest t.id (hui ▸ h1))
      · exact Or.inr (hui ▸ h2)

/-- C7: in a session whose create operations see strictly increasing
`Date.now()` readings — the spec's "creations are serialized by user
interaction" — the ids issued by successful creates are pairwise
strictly increasing in issue order, so no create ever reuses an earlier
id, deleted or not; moreover every id in the store after the session is
either one of those issued ids or an id already present initially. -/
theorem issued_ids_strictly_increase (ops : List Op)
    (h : (createTimes ops).Pairwise (· < ·)) :
    (issuedIds ops).Pairwise (· < ·) ∧
    ∀ (ts : List Task) (t : Task), t ∈ run ops ts →
      t.id ∈ issuedIds ops ∨ t.id ∈ ts.map Task.id :=
  ⟨List.Pairwise.sublist (issuedIds_sublist ops) h, run_id_mem ops⟩

/-- Concrete check for C7: create at time 100, delete that task, create
again at time 200 — the issued ids `[100, 200]` are strictly
increasing, so the second create does not reuse the deleted id. -/
theorem issued_ids_strictly_increase_witness :
    (issuedIds [Op.createOp "A" (some 5) 100 "i", Op.deleteOp true 100,
        Op.createOp "B" (some 3) 200 "j"]).Pairwise (· < ·) :=
  (issued_ids_strictly_increase
    [Op.createOp "A" (some 5) 100 "i", Op.deleteOp true 100,
     Op.createOp "B" (some 3) 200 "j"] (by decide)).1

end Tracker
